import Mathlib

/-!
Verification of the hotcue core of `CustomVideoPlayer.js` (viper-vj-fe).

The JavaScript functions are shallowly embedded as Lean definitions:

* `normalizeHotcues`  — lines 23–37 of `src/CustomVideoPlayer.js`
* `handleKeyPress`    — lines 303–377 (the keyboard dispatcher)
* `hasUnsavedChanges` — lines 82–128
* `clearHotcue`       — lines 557–564
* `updateLabel`       — lines 520–537 (`handleHotcueLabelBlur`)
* `handleSave`        — lines 569–660 (success/failure paths, message text)
* scrub controller    — lines 441–491 (mouse down/move/up/click handlers)
* a small heap model for the snapshot/live-set aliasing of
  `handleSave` (line 610) and `discardChanges` (lines 663–669)

JavaScript numbers are modelled as rationals (`ℚ`); maps (plain JS
objects) are modelled as association lists in insertion order, and the
relevant JS truthiness rules are modelled explicitly.
-/

namespace ViperVJ

/-- A hotcue key as seen by the dispatcher (a JS string). -/
abbrev Key := String

/-- ASCII lower-casing of one character (the keys this code handles
are ASCII letters). -/
def jsCharLower (c : Char) : Char :=
  if 'A' ≤ c ∧ c ≤ 'Z' then Char.ofNat (c.toNat + 32) else c

/-- JS `s.toLowerCase()` on the ASCII range. -/
def jsToLower (s : String) : String := ⟨s.data.map jsCharLower⟩

/-- ASCII whitespace, as trimmed by JS `trim()`. -/
def jsIsWS (c : Char) : Bool := c = ' ' || c = '\t' || c = '\n' || c = '\r'

/-- JS `s.trim()` on the ASCII range. -/
def jsTrim (s : String) : String :=
  ⟨((s.data.dropWhile jsIsWS).reverse.dropWhile jsIsWS).reverse⟩

/-- Line 15: the fixed 26-letter hotcue alphabet `LETTER_KEYS`. -/
def LETTER_KEYS : List Key :=
  ["q", "w", "e", "r", "t", "y", "u", "i", "o", "p", "a", "s", "d",
   "f", "g", "h", "j", "k", "l", "z", "x", "c", "v", "b", "n", "m"]

/-- A value stored in the live hotcue map.  The business logic of the
component distinguishes exactly two shapes at runtime: a legacy bare
number, and the structured `\x7btime, name\x7d` object (see e.g. lines
104–113 and 319–322 of the source). -/
inductive StoreVal where
  | num (t : ℚ)
  | obj (time : ℚ) (name : String)
deriving DecidableEq, Repr

/-- The hotcue map (a JS object), as an association list in insertion
order; JS objects have at most one binding per key. -/
abbrev Store := List (Key × StoreVal)

/-- JS property read `o[k]` on an object modelled as an association
list (`undefined` becomes `none`). -/
def assocGet {α β : Type} [BEq α] (l : List (α × β)) (a : α) : Option β :=
  (l.find? (fun p => p.1 == a)).map (·.2)

/-- JS read `store[key]` (`undefined` becomes `none`). -/
def lookupKey (s : Store) (k : Key) : Option StoreVal := assocGet s k

/-- JS truthiness of a stored value: `0` is falsy, objects are truthy. -/
def truthy : StoreVal → Bool
  | .num t => decide (t ≠ 0)
  | .obj _ _ => true

/-- Lines 104–105 / 322: `typeof h === 'number' ? h : h.time`. -/
def svTime : StoreVal → ℚ
  | .num t => t
  | .obj t _ => t

/-- Lines 112–113: `typeof h === 'object' ? (h.name || '') : ''`
(`name || ''` is the identity on strings stored in the object form). -/
def svName : StoreVal → String
  | .num _ => ""
  | .obj _ n => n

/-- JS spread-update `\x7b...s, [k]: v\x7d`: replaces the binding in place
when `k` is present, otherwise appends it (insertion order). -/
def setKey (s : Store) (k : Key) (v : StoreVal) : Store :=
  if (s.find? (fun p => p.1 == k)).isSome then
    s.map (fun p => if p.1 == k then (k, v) else p)
  else
    s ++ [(k, v)]

/-- Lines 557–564: `clearHotcue` copies the map and `delete`s the key. -/
def clearHotcue (s : Store) (k : Key) : Store :=
  s.filter (fun p => !(p.1 == k))

/-- Lines 520–537 (`handleHotcueLabelBlur`): if the key is bound to a
truthy value, rebind it to `\x7btime, name: label.trim()\x7d`. -/
def updateLabel (s : Store) (k : Key) (label : String) : Store :=
  match lookupKey s k with
  | some cv =>
      if truthy cv then setKey s k (.obj (svTime cv) (jsTrim label)) else s
  | none => s

/-! ### `normalizeHotcues` (lines 23–37)

Raw values can be arbitrary JSON-ish JS values; we model the shapes the
function's `typeof` tests distinguish, with recursive object fields. -/

/-- A JS value appearing as an object field (`time` / `name`) in raw
hotcue data.  `normalizeHotcues` only ever asks `typeof x === 'number'`
and truthiness of field values, so nested objects are modelled by the
opaque marker `objV` (truthy, not a number). -/
inductive Prim where
  | pnum (t : ℚ)
  | pstr (s : String)
  | pbool (b : Bool)
  | pnull
  | objV
deriving DecidableEq, Repr

/-- An arbitrary JS value found in raw (wire-format) hotcue data. -/
inductive RawVal where
  | num (t : ℚ)
  | str (s : String)
  | boolV (b : Bool)
  | nullV
  | undef
  | obj (time : Option Prim) (name : Option Prim)
deriving DecidableEq, Repr

/-- JS truthiness of a field value (`null`, `0`, `''`, `false` are
falsy; every object is truthy). -/
def primTruthy : Prim → Bool
  | .pnum t => decide (t ≠ 0)
  | .pstr s => decide (s ≠ "")
  | .pbool b => b
  | .pnull => false
  | .objV => true

/-- JS `x || ''` applied to a possibly-absent field value. -/
def jsOrEmpty : Option Prim → Prim
  | some w => if primTruthy w then w else .pstr ""
  | none => .pstr ""

/-- One entry of the `forEach` body of `normalizeHotcues` (lines 27–34):
a bare number becomes `\x7btime, name: ''\x7d`; a truthy object whose
`time` field is a number becomes `\x7btime, name: name || ''\x7d`;
anything else is dropped. -/
def normalizeEntry (v : RawVal) : Option RawVal :=
  match v with
  | .num t => some (.obj (some (.pnum t)) (some (.pstr "")))
  | .obj (some (.pnum t)) name =>
      some (.obj (some (.pnum t)) (some (jsOrEmpty name)))
  | _ => none

/-- Lines 23–37: `normalizeHotcues` (`none` models a null/undefined
argument, for which line 24 returns `\x7b\x7d`). -/
def normalizeHotcues : Option (List (Key × RawVal)) → List (Key × RawVal)
  | none => []
  | some hc => hc.filterMap (fun p => (normalizeEntry p.2).map (fun w => (p.1, w)))

/-! ### Keyboard dispatcher (`handleKeyPress`, lines 303–377) -/

/-- A command issued to the embedded player. -/
inductive Cmd where
  | seekTo (t : ℚ)
  | playVideo
  | pauseVideo
deriving DecidableEq, Repr

/-- Line 9: `PlayerStates.PLAYING = 1`. -/
def PLAYING : Int := 1

/-- The keyboard event fields the dispatcher reads: `e.key`, `e.code`,
and whether `e.target` is an INPUT/TEXTAREA element (lines 305–309). -/
structure KeyEvent where
  key : String
  code : String
  targetIsTextInput : Bool
deriving Repr

/-- The player-adapter facts the dispatcher reads through refs:
`playerRef.current` non-null, `isPlayerReadyRef.current`, the result of
`getCurrentTime()` (`none` models a thrown error, a non-number or NaN,
per lines 339–340), and `getPlayerState()`. -/
structure Player where
  hasPlayer : Bool
  ready : Bool
  currentTime : Option ℚ
  state : Int
deriving Repr

/-- The observable outcome of one dispatched keystroke: the new hotcue
map, the player commands issued in order, and the transient
"triggered" signal (before its 250ms timeout clears it). -/
structure DispatchResult where
  hotcues : Store
  cmds : List Cmd
  triggered : Option Key
deriving Repr

/-- Lines 303–377: the keyboard dispatcher.  Letter keys with a ready
player either jump (entry present: `seekTo` then `playVideo`, store
untouched) or set (entry absent: read the current time and, when it is
a valid number, bind `\x7btime, name: ''\x7d`); otherwise
`e.code === 'Space' || e.key === 'k'` attempts a play/pause toggle,
guarded again by player readiness. -/
def handleKeyPress (ev : KeyEvent) (p : Player) (hot : Store) : DispatchResult :=
  if ev.targetIsTextInput then ⟨hot, [], none⟩
  else
    let key := jsToLower ev.key
    if LETTER_KEYS.contains key && p.hasPlayer && p.ready then
      match lookupKey hot key with
      | some hc => ⟨hot, [.seekTo (svTime hc), .playVideo], some key⟩
      | none =>
          match p.currentTime with
          | some t => ⟨setKey hot key (.obj t ""), [], some key⟩
          | none => ⟨hot, [], none⟩
    else if ev.code == "Space" || ev.key == "k" then
      if p.hasPlayer && p.ready then
        if p.state = PLAYING then ⟨hot, [.pauseVideo], none⟩
        else ⟨hot, [.playVideo], none⟩
      else ⟨hot, [], none⟩
    else ⟨hot, [], none⟩

/-! ### Dirty checking (`hasUnsavedChanges`, lines 82–128) -/

/-- The body of the first loop (lines 95–118): a current entry is dirty
when the snapshot has no binding for its key (`!initialHotcue`, which
also fires on a falsy bound value), or its time or name differ. -/
def entryDirty (initial : Store) (p : Key × StoreVal) : Bool :=
  match lookupKey initial p.1 with
  | none => true
  | some iv =>
      if truthy iv = false then true
      else if svTime p.2 ≠ svTime iv then true
      else if svName p.2 ≠ svName iv then true
      else false

/-- The body of the second loop (lines 121–125): `!current[key]`. -/
def deletedDirty (current : Store) (p : Key × StoreVal) : Bool :=
  match lookupKey current p.1 with
  | none => true
  | some cv => !(truthy cv)

/-- Lines 82–128: `hasUnsavedChanges` — key-count comparison, then the
per-current-key loop, then the per-initial-key deletion loop. -/
def hasUnsavedChanges (current initial : Store) : Bool :=
  if current.length ≠ initial.length then true
  else if current.any (entryDirty initial) then true
  else initial.any (deletedDirty current)

/-- The spec's comparison, modelled from its words: two hotcue maps
agree when they have the same key set and, per key, the same time value
and the same label value (exact equality). -/
def sameHotcues (a b : Store) : Prop :=
  ∀ k, (lookupKey a k).map (fun v => (svTime v, svName v))
     = (lookupKey b k).map (fun v => (svTime v, svName v))

/-- A JS object has at most one binding per key. -/
def NodupKeys (s : Store) : Prop := (s.map Prod.fst).Nodup

/-- Every reachable live map / snapshot consists of structured
`\x7btime, name\x7d` entries (all write paths normalize). -/
def Normalized (s : Store) : Prop := ∀ p ∈ s, ∃ t n, p.2 = StoreVal.obj t n

/-! ### Saving (`handleSave`, lines 569–660) -/

/-- JS truthiness of a possibly-absent string (empty string is falsy). -/
def strTruthy : Option String → Bool
  | some s => decide (s ≠ "")
  | none => false

/-- JS `a || d` for a possibly-absent string `a` and a string default. -/
def jsOrStr (a : Option String) (d : String) : String :=
  match a with
  | some s => if s = "" then d else s
  | none => d

/-- Helper for `strIncludes`: does `pat` occur as a contiguous run? -/
def charsInclude (pat : List Char) : List Char → Bool
  | [] => pat.isEmpty
  | c :: rest => pat.isPrefixOf (c :: rest) || charsInclude pat rest

/-- JS `s.includes(pat)`. -/
def strIncludes (s pat : String) : Bool :=
  charsInclude pat.toList s.toList

/-- The fields of `error.response.data` (and `statusText`) that the
failure branch of `handleSave` reads (lines 637–648). -/
structure ErrResponse where
  errorField : Option String
  details : Option String
  statusText : String
  missingFields : Option (List String)
  errType : Option String
deriving Repr

/-- The axios error fields read in lines 621–651. -/
structure AxiosErr where
  code : Option String
  message : String
  response : Option ErrResponse
deriving Repr

/-- Outcome of the POST to the persistence collaborator. -/
inductive SaveOutcome where
  | success (serverMessage : Option String)
  | failure (e : AxiosErr)
deriving Repr

/-- A notification shown to the user (`saveMessage`). -/
structure SaveMsg where
  mtype : String
  text : String
deriving DecidableEq, Repr

/-- Lines 631–651: the failure-notification text, classifying the
error: connection unreachable, timeout, server-reported error (with
`Missing: ...` field list and `(type)` suffix), or generic. -/
def failureText (e : AxiosErr) : String :=
  "Failed to save video. " ++
    (if e.code == some "ECONNREFUSED" || e.code == some "ERR_NETWORK" then
      "Cannot connect to backend server. Is it running on port 3001?"
    else if e.code == some "ECONNABORTED" || strIncludes e.message "timeout" then
      "Request timed out. Please try again."
    else
      match e.response with
      | some rd =>
          jsOrStr rd.errorField (jsOrStr rd.details rd.statusText)
            ++ (match rd.missingFields with
                | some fs => " Missing: " ++ String.intercalate ", " fs
                | none => "")
            ++ (match rd.errType with
                | some t => if t = "" then "" else " (" ++ t ++ ")"
                | none => "")
      | none => if e.message = "" then "Unknown error occurred." else e.message)

/-- Lines 569–660: `handleSave` as a function of the inputs it reads
and the request outcome; returns the new saved snapshot
(`initialHotcuesRef.current`) and the notification.  On success the
snapshot is replaced by a binding-level copy of the live map
(line 610); on any failure it is left untouched. -/
def handleSave (youtubeUrl videoId username : Option String)
    (live snap : Store) (outcome : SaveOutcome) : Store × SaveMsg :=
  if !(strTruthy youtubeUrl) || !(strTruthy videoId) then
    (snap, ⟨"error",
      jsTrim ("Missing required data: "
        ++ (if !(strTruthy youtubeUrl) then "YouTube URL" else "")
        ++ " "
        ++ (if !(strTruthy videoId) then "Video ID" else ""))⟩)
  else if !(strTruthy username) then
    (snap, ⟨"error", "You must be logged in to save videos"⟩)
  else
    match outcome with
    | .success serverMessage =>
        (live, ⟨"success",
          jsOrStr serverMessage "Video and hotcues saved successfully!"⟩)
    | .failure e => (snap, ⟨"error", failureText e⟩)

/-- Lines 663–669: `discardChanges` resets the live map to the saved
snapshot (the same bindings, no copy); returns the new live map. -/
def discardChanges (snap : Store) : Store := snap

/-! ### Scrub/seek controller (lines 441–512) -/

/-- The environment the progress-bar handlers read: player presence and
readiness, the known duration (`0` models falsy `duration`), whether
the track element ref is attached, and its bounding box. -/
structure ScrubEnv where
  hasPlayer : Bool
  ready : Bool
  duration : ℚ
  barAttached : Bool
  trackLeft : ℚ
  trackWidth : ℚ
deriving Repr

/-- The drag state: `isDragging` and the preview `dragTime`. -/
structure ScrubState where
  isDragging : Bool
  dragTime : ℚ
deriving DecidableEq, Repr

/-- The four pointer events the controller handles. -/
inductive ScrubEvent where
  | mouseDown (x : ℚ)
  | mouseMove (x : ℚ)
  | mouseUp (x : ℚ)
  | click (x : ℚ)
deriving Repr

/-- Lines 441–447: `calculateSeekTime` — clamp the pointer fraction of
the track to [0,1] and scale by duration. -/
def calculateSeekTime (env : ScrubEnv) (clientX : ℚ) : ℚ :=
  if !env.barAttached || env.duration = 0 then 0
  else
    let clickX := clientX - env.trackLeft
    let percentage := max 0 (min 1 (clickX / env.trackWidth))
    percentage * env.duration

/-- Lines 449–491: one event through the corresponding handler,
returning the new drag state and the seeks issued (each seek also sets
`currentTime`, not modelled separately). -/
def scrubStep (env : ScrubEnv) (s : ScrubState) :
    ScrubEvent → ScrubState × List ℚ
  | .mouseDown x =>
      if !env.hasPlayer || !env.ready || env.duration = 0 then (s, [])
      else (⟨true, calculateSeekTime env x⟩, [])
  | .mouseMove x =>
      if !s.isDragging || env.duration = 0 then (s, [])
      else (⟨s.isDragging, calculateSeekTime env x⟩, [])
  | .mouseUp x =>
      if !s.isDragging || !env.hasPlayer || !env.ready then (s, [])
      else (⟨false, 0⟩, [calculateSeekTime env x])
  | .click x =>
      if s.isDragging then (s, [])
      else if !env.hasPlayer || !env.ready || env.duration = 0 then (s, [])
      else (s, [calculateSeekTime env x])

/-- Run a sequence of pointer events, accumulating the issued seeks. -/
def runScrub (env : ScrubEnv) (s : ScrubState) :
    List ScrubEvent → ScrubState × List ℚ
  | [] => (s, [])
  | ev :: evs =>
      let r := scrubStep env s ev
      let rest := runScrub env r.1 evs
      (rest.1, r.2 ++ rest.2)

/-! ### Heap model of live-map / snapshot sharing

The snapshot taken at a successful save (line 610,
`initialHotcuesRef.current = \x7b ...hotcuesRef.current \x7d`) copies
the map's bindings but shares its entry objects, and `discardChanges`
(line 667) makes the live map the very same object as the snapshot.
To settle structural-independence claims we therefore model entry
objects as heap cells referenced by address, exactly mirroring where
the source allocates fresh objects (lines 343, 526/533) versus reusing
references. -/

/-- A `\x7btime, name\x7d` entry object on the heap. -/
structure EntryObj where
  time : ℚ
  name : String
deriving DecidableEq, Repr

/-- Heap addresses. -/
abbrev Addr := Nat

/-- The heap of allocated entry objects. -/
abbrev Heap := List (Addr × EntryObj)

/-- A hotcue map as a JS object: bindings from key to entry reference. -/
abbrev RefMap := List (Key × Addr)

/-- Dereference a heap address. -/
def Heap.get (h : Heap) (a : Addr) : Option EntryObj := assocGet h a

/-- The component state relevant to snapshot isolation:
the heap, a fresh-address counter, `hotcuesRef.current` (live) and
`initialHotcuesRef.current` (snapshot). -/
structure CompState where
  heap : Heap
  nextAddr : Addr
  live : RefMap
  snap : RefMap
deriving Repr

/-- Look up a binding in a reference map. -/
def refLookup (m : RefMap) (k : Key) : Option Addr := assocGet m k

/-- The live-map mutations the component performs after a save:
setting a hotcue (line 343), clearing one (lines 557–564), and a label
edit (lines 520–537). -/
inductive LiveOp where
  | setHot (k : Key) (t : ℚ)
  | clearHot (k : Key)
  | editLabel (k : Key) (lbl : String)
deriving Repr

/-- Apply one live-map mutation.  Each mutation that writes an entry
allocates a fresh `\x7btime, name\x7d` object (an object literal in the
source) and rebinds the key; no existing heap cell is ever written. -/
def applyOp (st : CompState) : LiveOp → CompState
  | .setHot k t =>
      if (refLookup st.live k).isSome then st
      else
        { st with
          heap := st.heap ++ [(st.nextAddr, ⟨t, ""⟩)]
          nextAddr := st.nextAddr + 1
          live := st.live ++ [(k, st.nextAddr)] }
  | .clearHot k => { st with live := st.live.filter (fun p => !(p.1 == k)) }
  | .editLabel k lbl =>
      match (refLookup st.live k).bind (fun a => Heap.get st.heap a) with
      | some e =>
          { st with
            heap := st.heap ++ [(st.nextAddr, ⟨e.time, jsTrim lbl⟩)]
            nextAddr := st.nextAddr + 1
            live := st.live.map
              (fun q => if q.1 == k then (k, st.nextAddr) else q) }
      | none => st

/-- Apply a sequence of live-map mutations. -/
def applyOps (st : CompState) : List LiveOp → CompState
  | [] => st
  | op :: ops => applyOps (applyOp st op) ops

/-- Line 610: a successful save replaces the snapshot with a
binding-level copy of the live map (entry objects shared). -/
def saveSnapshot (st : CompState) : CompState := { st with snap := st.live }

/-- Lines 663–669: discard makes the live map the snapshot itself. -/
def discardState (st : CompState) : CompState := { st with live := st.snap }

/-- The observable content of a reference map: each key with the entry
object its reference denotes. -/
def content (h : Heap) (m : RefMap) : List (Key × Option EntryObj) :=
  m.map (fun p => (p.1, Heap.get h p.2))

/-- Well-formedness: every allocated address and every address
reachable from the live map or the snapshot is below `nextAddr`. -/
def WFState (st : CompState) : Prop :=
  (∀ p ∈ st.heap, p.1 < st.nextAddr)
  ∧ (∀ p ∈ st.live, p.2 < st.nextAddr)
  ∧ (∀ p ∈ st.snap, p.2 < st.nextAddr)

/-! ## Association-list lemmas -/

section AssocLemmas

variable {α β : Type} [DecidableEq α]

theorem assocGet_nil (a : α) : assocGet ([] : List (α × β)) a = none := rfl

theorem assocGet_cons (p : α × β) (l : List (α × β)) (a : α) :
    assocGet (p :: l) a = if p.1 = a then some p.2 else assocGet l a := by
  by_cases h : p.1 = a
  · simp [assocGet, List.find?_cons, h]
  · simp [assocGet, List.find?_cons, h]

theorem assocGet_append_single_ne {a a' : α} (l : List (α × β)) (b : β)
    (h : a' ≠ a) : assocGet (l ++ [(a, b)]) a' = assocGet l a' := by
  induction l with
  | nil => simp [assocGet_cons, assocGet_nil, Ne.symm h]
  | cons p t ih =>
      rw [List.cons_append, assocGet_cons, assocGet_cons, ih]

theorem assocGet_append_single_self (l : List (α × β)) (a : α) (b : β)
    (h : assocGet l a = none) : assocGet (l ++ [(a, b)]) a = some b := by
  induction l with
  | nil => simp [assocGet_cons, assocGet_nil]
  | cons p t ih =>
      rw [assocGet_cons] at h
      rw [List.cons_append, assocGet_cons]
      by_cases hp : p.1 = a
      · simp [hp] at h
      · simpa [hp] using ih (by simpa [hp] using h)

theorem assocGet_map_set_ne {k k' : α} (l : List (α × β)) (v : β)
    (h : k' ≠ k) :
    assocGet (l.map (fun p => if p.1 == k then (k, v) else p)) k'
      = assocGet l k' := by
  induction l with
  | nil => rfl
  | cons p t ih =>
      rw [List.map_cons]
      by_cases hp : p.1 = k
      · rw [if_pos (by simpa using hp), assocGet_cons, assocGet_cons,
          if_neg (Ne.symm h), if_neg (by rw [hp]; exact Ne.symm h), ih]
      · rw [if_neg (by simpa using hp), assocGet_cons, assocGet_cons, ih]

theorem assocGet_filter_ne {k k' : α} (l : List (α × β)) (h : k' ≠ k) :
    assocGet (l.filter (fun p => !(p.1 == k))) k' = assocGet l k' := by
  induction l with
  | nil => rfl
  | cons p t ih =>
      by_cases hp : p.1 = k
      · rw [List.filter_cons_of_neg (by simp [hp]), ih, assocGet_cons,
          if_neg (by simpa [hp] using fun hc => h hc.symm)]
      · rw [List.filter_cons_of_pos (by simp [hp]), assocGet_cons,
          assocGet_cons, ih]

theorem assocGet_filter_self (l : List (α × β)) (k : α) :
    assocGet (l.filter (fun p => !(p.1 == k))) k = none := by
  induction l with
  | nil => rfl
  | cons p t ih =>
      by_cases hp : p.1 = k
      · rw [List.filter_cons_of_neg (by simp [hp])]; exact ih
      · rw [List.filter_cons_of_pos (by simp [hp]), assocGet_cons,
          if_neg hp]; exact ih

theorem filter_eq_self_of_assocGet_none (l : List (α × β)) (k : α)
    (h : assocGet l k = none) : l.filter (fun p => !(p.1 == k)) = l := by
  induction l with
  | nil => rfl
  | cons p t ih =>
      rw [assocGet_cons] at h
      by_cases hp : p.1 = k
      · simp [hp] at h
      · rw [List.filter_cons_of_pos (by simp [hp]), ih (by simpa [hp] using h)]

theorem mem_of_assocGet_eq_some {l : List (α × β)} {a : α} {b : β}
    (h : assocGet l a = some b) : (a, b) ∈ l := by
  induction l with
  | nil => simp [assocGet_nil] at h
  | cons p t ih =>
      rw [assocGet_cons] at h
      by_cases hp : p.1 = a
      · rw [if_pos hp] at h
        have hb : p.2 = b := Option.some.inj h
        have hpe : (a, b) = p := by
          rw [Prod.ext_iff]
          exact ⟨hp.symm, hb.symm⟩
        exact List.mem_cons.mpr (Or.inl hpe)
      · exact List.mem_cons_of_mem _ (ih (by simpa [hp] using h))

theorem assocGet_eq_some_of_mem {l : List (α × β)} {a : α} {b : β}
    (hd : (l.map Prod.fst).Nodup) (hm : (a, b) ∈ l) :
    assocGet l a = some b := by
  induction l with
  | nil => simp at hm
  | cons p t ih =>
      rw [List.map_cons, List.nodup_cons] at hd
      rcases List.mem_cons.mp hm with h1 | h2
      · rw [← h1, assocGet_cons, if_pos rfl]
      · rw [assocGet_cons, if_neg, ih hd.2 h2]
        intro hc
        exact hd.1 (hc ▸ List.mem_map_of_mem Prod.fst h2)

theorem assocGet_isSome_iff_mem {l : List (α × β)} {a : α} :
    (assocGet l a).isSome ↔ a ∈ l.map Prod.fst := by
  induction l with
  | nil => simp [assocGet_nil]
  | cons p t ih =>
      rw [assocGet_cons]
      by_cases hp : p.1 = a
      · simp [hp]
      · simp [hp, ih, Ne.symm hp]

theorem assocGet_eq_none_iff {l : List (α × β)} {a : α} :
    assocGet l a = none ↔ a ∉ l.map Prod.fst := by
  rw [← assocGet_isSome_iff_mem, Option.not_isSome_iff_eq_none]

end AssocLemmas

/-! ## Claims about the keyboard dispatcher -/

/-- C1: for a keystroke on a hotcue letter while the player is ready and
the store has no entry for that key, the dispatcher reads the current
time and, when it is a valid number, binds `\x7btime, name: ''\x7d` for
that key, issuing no seek and no play command. -/
theorem C1_set_hotcue (ev : KeyEvent) (p : Player) (hot : Store) (t : ℚ)
    (htext : ev.targetIsTextInput = false)
    (hkey : LETTER_KEYS.contains (jsToLower ev.key) = true)
    (hpl : p.hasPlayer = true) (hrd : p.ready = true)
    (habs : lookupKey hot (jsToLower ev.key) = none)
    (htime : p.currentTime = some t) :
    handleKeyPress ev p hot
      = ⟨setKey hot (jsToLower ev.key) (StoreVal.obj t ""), [],
          some (jsToLower ev.key)⟩ := by
  have hmem : jsToLower ev.key ∈ LETTER_KEYS := by simpa using hkey
  simp [handleKeyPress, htext, hmem, hpl, hrd, habs, htime]

/-- Witness for C1 at the spec's example: empty store, player ready at
time 7.25, pressing `w` makes the store exactly
`\x7bw: \x7btime: 7.25, name: ''\x7d\x7d` with no command issued. -/
theorem C1_set_hotcue_witness :
    (⟨"w", "KeyW", false⟩ : KeyEvent).targetIsTextInput = false
    ∧ LETTER_KEYS.contains (jsToLower "w") = true
    ∧ lookupKey [] (jsToLower "w") = none
    ∧ (⟨true, true, some (29/4), 2⟩ : Player).currentTime = some (29/4)
    ∧ handleKeyPress ⟨"w", "KeyW", false⟩ ⟨true, true, some (29/4), 2⟩ []
        = ⟨[("w", StoreVal.obj (29/4) "")], [], some "w"⟩ :=
  ⟨rfl, by decide, rfl, rfl, by
    rw [C1_set_hotcue ⟨"w", "KeyW", false⟩ ⟨true, true, some (29/4), 2⟩ []
      (29/4) rfl (by decide) rfl rfl rfl rfl]
    rfl⟩

/-- C2: for a keystroke on a hotcue letter while the player is ready and
the store has an entry for that key, the dispatcher seeks to the stored
time and then issues play, leaving the store unchanged. -/
theorem C2_jump_hotcue (ev : KeyEvent) (p : Player) (hot : Store)
    (v : StoreVal)
    (htext : ev.targetIsTextInput = false)
    (hkey : LETTER_KEYS.contains (jsToLower ev.key) = true)
    (hpl : p.hasPlayer = true) (hrd : p.ready = true)
    (hpres : lookupKey hot (jsToLower ev.key) = some v) :
    handleKeyPress ev p hot
      = ⟨hot, [Cmd.seekTo (svTime v), Cmd.playVideo],
          some (jsToLower ev.key)⟩ := by
  have hmem : jsToLower ev.key ∈ LETTER_KEYS := by simpa using hkey
  simp [handleKeyPress, htext, hmem, hpl, hrd, hpres]

/-- Witness for C2 at the spec's example: with store
`\x7bq: \x7btime: 12.5, name: ''\x7d\x7d`, pressing `q` issues
`seekTo(12.5)` then `playVideo()` and the store is unchanged. -/
theorem C2_jump_hotcue_witness :
    lookupKey [("q", StoreVal.obj (25/2) "")] (jsToLower "q")
        = some (StoreVal.obj (25/2) "")
    ∧ handleKeyPress ⟨"q", "KeyQ", false⟩ ⟨true, true, some 0, 1⟩
        [("q", StoreVal.obj (25/2) "")]
      = ⟨[("q", StoreVal.obj (25/2) "")],
          [Cmd.seekTo (25/2), Cmd.playVideo], some "q"⟩ :=
  ⟨rfl, by
    rw [C2_jump_hotcue ⟨"q", "KeyQ", false⟩ ⟨true, true, some 0, 1⟩
      [("q", StoreVal.obj (25/2) "")] (StoreVal.obj (25/2) "")
      rfl (by decide) rfl rfl rfl]
    rfl⟩

/-- C9 counterexample: with the player ready and in the playing state
and an empty store, pressing `k` — the letter the source maps to
play/pause in line 361 — does not issue any pause (or play) command: the
letter-hotcue branch catches `k` first and sets a hotcue instead, so
the claim that `k` toggles playback while the player is ready is false. -/
theorem C9_counterexample :
    (⟨true, true, some 3, 1⟩ : Player).state = PLAYING
    ∧ (handleKeyPress ⟨"k", "KeyK", false⟩ ⟨true, true, some 3, 1⟩ []).cmds
        = []
    ∧ (handleKeyPress ⟨"k", "KeyK", false⟩ ⟨true, true, some 3, 1⟩ []).hotcues
        = [("k", StoreVal.obj 3 "")] :=
  ⟨rfl, rfl, rfl⟩

/-- C9 (amended): for every keystroke whose key is space, while the
player is ready, the dispatcher toggles playback based on the current
playback state — pause when the player state is PLAYING, play
otherwise — leaving the store unchanged.  A `k` keystroke with a ready
player is consumed by the letter-hotcue branch instead and never
reaches the toggle. -/
theorem C9_space_toggles (p : Player) (hot : Store)
    (hpl : p.hasPlayer = true) (hrd : p.ready = true) :
    handleKeyPress ⟨" ", "Space", false⟩ p hot
      = ⟨hot, [if p.state = PLAYING then Cmd.pauseVideo else Cmd.playVideo],
          none⟩ := by
  have hnm : jsToLower " " ∉ LETTER_KEYS := by decide
  by_cases hs : p.state = PLAYING
  · simp [handleKeyPress, hpl, hrd, hs, hnm]
  · simp [handleKeyPress, hpl, hrd, hs, hnm]

/-- Witness for C9 (amended): space with a playing player pauses, and
space with a paused player plays. -/
theorem C9_space_toggles_witness :
    handleKeyPress ⟨" ", "Space", false⟩ ⟨true, true, some 3, 1⟩ []
      = ⟨[], [Cmd.pauseVideo], none⟩
    ∧ handleKeyPress ⟨" ", "Space", false⟩ ⟨true, true, some 3, 2⟩ []
      = ⟨[], [Cmd.playVideo], none⟩ :=
  ⟨by rw [C9_space_toggles ⟨true, true, some 3, 1⟩ [] rfl rfl]; rfl,
   by rw [C9_space_toggles ⟨true, true, some 3, 2⟩ [] rfl rfl]; rfl⟩

/-- C10: single-key mutations have no frame effect — setting key `k`
leaves every other key's entry as it was, clearing `k` removes only
`k`'s entry, and clearing an absent key leaves the store unchanged. -/
theorem C10_frame (s : Store) (k k' : Key) (v : StoreVal) (hne : k' ≠ k) :
    lookupKey (setKey s k v) k' = lookupKey s k'
    ∧ lookupKey (clearHotcue s k) k' = lookupKey s k'
    ∧ lookupKey (clearHotcue s k) k = none
    ∧ (lookupKey s k = none → clearHotcue s k = s) := by
  refine ⟨?_, assocGet_filter_ne s hne, assocGet_filter_self s k,
    filter_eq_self_of_assocGet_none s k⟩
  unfold setKey lookupKey
  split
  · exact assocGet_map_set_ne s v hne
  · exact assocGet_append_single_ne s v hne

/-! ## Claims about `normalizeHotcues` -/

theorem jsOrEmpty_idem (o : Option Prim) :
    jsOrEmpty (some (jsOrEmpty o)) = jsOrEmpty o := by
  have h0 : primTruthy (Prim.pstr "") = false := rfl
  cases o with
  | none => rfl
  | some w =>
      by_cases h : primTruthy w = true
      · simp [jsOrEmpty, h]
      · simp [jsOrEmpty, h, h0]

theorem normalizeEntry_idem {v w : RawVal}
    (h : normalizeEntry v = some w) : normalizeEntry w = some w := by
  cases v with
  | num t =>
      have hw : w = RawVal.obj (some (.pnum t)) (some (.pstr "")) :=
        (Option.some.inj h).symm
      subst hw
      rfl
  | obj tf nf =>
      match tf with
      | some (.pnum t) =>
          have hw : w = RawVal.obj (some (.pnum t)) (some (jsOrEmpty nf)) :=
            (Option.some.inj h).symm
          subst hw
          show some (RawVal.obj (some (.pnum t))
              (some (jsOrEmpty (some (jsOrEmpty nf))))) = _
          rw [jsOrEmpty_idem]
      | some (.pstr s) => exact Option.noConfusion h
      | some (.pbool b) => exact Option.noConfusion h
      | some .pnull => exact Option.noConfusion h
      | some .objV => exact Option.noConfusion h
      | none => exact Option.noConfusion h
  | str s => exact Option.noConfusion h
  | boolV b => exact Option.noConfusion h
  | nullV => exact Option.noConfusion h
  | undef => exact Option.noConfusion h

theorem normalizeEntry_shape {v w : RawVal}
    (h : normalizeEntry v = some w) :
    ∃ (t : ℚ) (m : Prim), w = RawVal.obj (some (.pnum t)) (some m) := by
  cases v with
  | num t => exact ⟨t, .pstr "", (Option.some.inj h).symm⟩
  | obj tf nf =>
      match tf with
      | some (.pnum t) => exact ⟨t, jsOrEmpty nf, (Option.some.inj h).symm⟩
      | some (.pstr s) => exact Option.noConfusion h
      | some (.pbool b) => exact Option.noConfusion h
      | some .pnull => exact Option.noConfusion h
      | some .objV => exact Option.noConfusion h
      | none => exact Option.noConfusion h
  | str s => exact Option.noConfusion h
  | boolV b => exact Option.noConfusion h
  | nullV => exact Option.noConfusion h
  | undef => exact Option.noConfusion h

theorem normalizeHotcues_some (l : List (Key × RawVal)) :
    normalizeHotcues (some l)
      = l.filterMap (fun p => (normalizeEntry p.2).map (fun w => (p.1, w))) :=
  rfl

/-- C5: `normalize` is idempotent — for every input mapping `x` (or a
null/undefined argument), `normalize(normalize(x)) == normalize(x)`. -/
theorem C5_normalize_idempotent (x : Option (List (Key × RawVal))) :
    normalizeHotcues (some (normalizeHotcues x)) = normalizeHotcues x := by
  have inner : ∀ l : List (Key × RawVal),
      normalizeHotcues (some (normalizeHotcues (some l)))
        = normalizeHotcues (some l) := by
    intro l
    induction l with
    | nil => rfl
    | cons p t ih =>
        cases h : normalizeEntry p.2 with
        | none =>
            rw [normalizeHotcues_some (p :: t),
              List.filterMap_cons_none (by rw [h]; rfl),
              ← normalizeHotcues_some t, ih]
        | some w =>
            have ih3 := ih
            rw [normalizeHotcues_some (normalizeHotcues (some t))] at ih3
            rw [normalizeHotcues_some (p :: t),
              List.filterMap_cons_some (by rw [h]; rfl),
              normalizeHotcues_some,
              List.filterMap_cons_some (by
                show (normalizeEntry w).map _ = _
                rw [normalizeEntry_idem h]; rfl),
              ← normalizeHotcues_some t, ih3]
  cases x with
  | none => rfl
  | some l => exact inner l

/-- C6: `normalize` is total and sanitizing — bare numbers become
`\x7btime, name: ''\x7d`, objects with a numeric `time` keep their time
and get `name || ''`, every other entry is dropped, and every output
entry is a well-formed structured entry.  (Totality — "never throws" —
holds by construction: `normalizeEntry` and `normalizeHotcues` are
total functions.) -/
theorem C6_normalize_sanitizes :
    (∀ (l : List (Key × RawVal)) (k : Key) (t : ℚ),
      (k, RawVal.num t) ∈ l →
        (k, RawVal.obj (some (.pnum t)) (some (.pstr "")))
          ∈ normalizeHotcues (some l))
    ∧ (∀ (l : List (Key × RawVal)) (k : Key) (t : ℚ) (nm : Option Prim),
      (k, RawVal.obj (some (.pnum t)) nm) ∈ l →
        (k, RawVal.obj (some (.pnum t)) (some (jsOrEmpty nm)))
          ∈ normalizeHotcues (some l))
    ∧ (∀ (v : RawVal), (∀ t : ℚ, v ≠ RawVal.num t) →
        (∀ (t : ℚ) (nm : Option Prim),
          v ≠ RawVal.obj (some (.pnum t)) nm) →
        normalizeEntry v = none)
    ∧ (∀ (l : List (Key × RawVal)) (p : Key × RawVal),
        p ∈ normalizeHotcues (some l) →
          ∃ (t : ℚ) (m : Prim),
            p.2 = RawVal.obj (some (.pnum t)) (some m)) := by
  refine ⟨?_, ?_, ?_, ?_⟩
  · intro l k t hm
    simp only [normalizeHotcues, List.mem_filterMap]
    exact ⟨(k, RawVal.num t), hm, rfl⟩
  · intro l k t nm hm
    simp only [normalizeHotcues, List.mem_filterMap]
    exact ⟨(k, RawVal.obj (some (.pnum t)) nm), hm, rfl⟩
  · intro v hnum hobj
    cases v with
    | num t => exact absurd rfl (hnum t)
    | obj tf nf =>
        match tf with
        | some (.pnum t) => exact absurd rfl (hobj t nf)
        | some (.pstr s) => rfl
        | some (.pbool b) => rfl
        | some .pnull => rfl
        | some .objV => rfl
        | none => rfl
    | str s => rfl
    | boolV b => rfl
    | nullV => rfl
    | undef => rfl
  · intro l p hp
    rw [normalizeHotcues_some, List.mem_filterMap] at hp
    obtain ⟨q, hql, hq⟩ := hp
    cases hq' : normalizeEntry q.2 with
    | none => rw [hq'] at hq; exact Option.noConfusion hq
    | some w =>
        rw [hq'] at hq
        have h2 : w = p.2 := congrArg Prod.snd (Option.some.inj hq)
        obtain ⟨t, m, hm⟩ := normalizeEntry_shape hq'
        exact ⟨t, m, by rw [← h2, hm]⟩

/-- Witness for C6 on a concrete raw mapping mixing a legacy number, a
structured entry, and three malformed entries. -/
theorem C6_normalize_sanitizes_witness :
    ((("q", RawVal.num 3) : Key × RawVal)
        ∈ [("q", RawVal.num 3),
           ("w", RawVal.obj (some (.pnum 2)) (some (.pstr "lbl"))),
           ("e", RawVal.str "bad"),
           ("r", RawVal.obj (some (.pstr "x")) none),
           ("t", RawVal.nullV)]
      ∧ ("q", RawVal.obj (some (.pnum 3)) (some (.pstr "")))
          ∈ normalizeHotcues (some [("q", RawVal.num 3),
             ("w", RawVal.obj (some (.pnum 2)) (some (.pstr "lbl"))),
             ("e", RawVal.str "bad"),
             ("r", RawVal.obj (some (.pstr "x")) none),
             ("t", RawVal.nullV)]))
    ∧ normalizeEntry (RawVal.str "bad") = none
    ∧ normalizeHotcues (some [("q", RawVal.num 3),
         ("w", RawVal.obj (some (.pnum 2)) (some (.pstr "lbl"))),
         ("e", RawVal.str "bad"),
         ("r", RawVal.obj (some (.pstr "x")) none),
         ("t", RawVal.nullV)])
       = [("q", RawVal.obj (some (.pnum 3)) (some (.pstr ""))),
          ("w", RawVal.obj (some (.pnum 2)) (some (.pstr "lbl")))] := by
  refine ⟨⟨by decide, ?_⟩, ?_, by decide⟩
  · exact C6_normalize_sanitizes.1 _ "q" 3 (by decide)
  · exact C6_normalize_sanitizes.2.2.1 (RawVal.str "bad")
      (fun t => by simp) (fun t nm => by simp)

/-! ## Claims about dirty checking (`hasUnsavedChanges`) -/

theorem entryDirty_false_elim {b : Store} {p : Key × StoreVal}
    (h : entryDirty b p = false) :
    ∃ iv, lookupKey b p.1 = some iv ∧ truthy iv = true
      ∧ svTime p.2 = svTime iv ∧ svName p.2 = svName iv := by
  unfold entryDirty at h
  cases hb : lookupKey b p.1 with
  | none => rw [hb] at h; exact Bool.noConfusion h
  | some iv =>
      rw [hb] at h
      have h0 : (if truthy iv = false then true
          else if svTime p.2 ≠ svTime iv then true
          else if svName p.2 ≠ svName iv then true else false) = false := h
      by_cases h1 : truthy iv = false
      · rw [if_pos h1] at h0
        exact Bool.noConfusion h0
      · rw [if_neg h1] at h0
        by_cases h2 : svTime p.2 ≠ svTime iv
        · rw [if_pos h2] at h0
          exact Bool.noConfusion h0
        · rw [if_neg h2] at h0
          by_cases h3 : svName p.2 ≠ svName iv
          · rw [if_pos h3] at h0
            exact Bool.noConfusion h0
          · exact ⟨iv, rfl, by revert h1; cases truthy iv <;> simp,
              not_ne_iff.mp h2, not_ne_iff.mp h3⟩

theorem deletedDirty_false_elim {a : Store} {p : Key × StoreVal}
    (h : deletedDirty a p = false) :
    ∃ cv, lookupKey a p.1 = some cv ∧ truthy cv = true := by
  unfold deletedDirty at h
  cases hc : lookupKey a p.1 with
  | none => rw [hc] at h; exact Bool.noConfusion h
  | some cv =>
      rw [hc] at h
      have h0 : (!truthy cv) = false := h
      exact ⟨cv, rfl, by revert h0; cases truthy cv <;> simp⟩

theorem hasUnsavedChanges_eq_false_iff (a b : Store) :
    hasUnsavedChanges a b = false ↔
      a.length = b.length ∧ (∀ p ∈ a, entryDirty b p = false)
        ∧ (∀ p ∈ b, deletedDirty a p = false) := by
  rw [hasUnsavedChanges]
  split_ifs with h1 h2
  · simp [h1]
  · rw [List.any_eq_true] at h2
    obtain ⟨p, hp, hd⟩ := h2
    simp only [Bool.true_eq_false, false_iff]
    rintro ⟨-, hall, -⟩
    rw [hall p hp] at hd
    exact Bool.noConfusion hd
  · have h1' : a.length = b.length := not_ne_iff.mp h1
    have h2' : ∀ p ∈ a, entryDirty b p = false := by
      intro p hp
      by_contra hc
      exact h2 (List.any_eq_true.mpr
        ⟨p, hp, by revert hc; cases entryDirty b p <;> simp⟩)
    rw [List.any_eq_false]
    constructor
    · intro hall
      refine ⟨h1', h2', fun p hp => ?_⟩
      have := hall p hp
      revert this
      cases deletedDirty a p <;> simp
    · rintro ⟨-, -, hall⟩ p hp
      rw [hall p hp]
      simp

theorem sameHotcues_isSome {a b : Store} (h : sameHotcues a b) (k : Key) :
    (lookupKey a k).isSome = (lookupKey b k).isSome := by
  have hk := h k
  cases ha : lookupKey a k <;> cases hb : lookupKey b k <;>
    rw [ha, hb] at hk <;> simp_all

theorem length_eq_of_sameHotcues {a b : Store}
    (hna : NodupKeys a) (hnb : NodupKeys b) (h : sameHotcues a b) :
    a.length = b.length := by
  have hperm : (a.map Prod.fst).Perm (b.map Prod.fst) := by
    rw [List.perm_ext_iff_of_nodup hna hnb]
    intro k
    rw [← assocGet_isSome_iff_mem, ← assocGet_isSome_iff_mem]
    rw [show (assocGet a k).isSome = (assocGet b k).isSome from
      sameHotcues_isSome h k]
  have := hperm.length_eq
  simpa using this

theorem mem_self_pair {s : Store} {p : Key × StoreVal} (hp : p ∈ s) :
    (p.1, p.2) ∈ s := by
  cases p
  exact hp

/-- The central equivalence: on well-formed stores, `hasUnsavedChanges`
is `false` exactly when the two maps agree in key set, times and names. -/
theorem hasUnsavedChanges_false_iff_same {a b : Store}
    (hna : NodupKeys a) (hnb : NodupKeys b)
    (hfa : Normalized a) (hfb : Normalized b) :
    hasUnsavedChanges a b = false ↔ sameHotcues a b := by
  rw [hasUnsavedChanges_eq_false_iff]
  constructor
  · rintro ⟨-, hcur, hdel⟩ k
    cases ha : lookupKey a k with
    | some v =>
        have hmem : (k, v) ∈ a := mem_of_assocGet_eq_some ha
        obtain ⟨iv, hb, -, ht, hn⟩ := entryDirty_false_elim (hcur (k, v) hmem)
        have hb2 : lookupKey b k = some iv := hb
        have ht2 : svTime v = svTime iv := ht
        have hn2 : svName v = svName iv := hn
        rw [hb2]
        show some (svTime v, svName v) = some (svTime iv, svName iv)
        rw [ht2, hn2]
    | none =>
        cases hb : lookupKey b k with
        | some w =>
            have hmem : (k, w) ∈ b := mem_of_assocGet_eq_some hb
            obtain ⟨cv, hc, -⟩ := deletedDirty_false_elim (hdel (k, w) hmem)
            rw [ha] at hc
            exact Option.noConfusion hc
        | none => rfl
  · intro hs
    refine ⟨length_eq_of_sameHotcues hna hnb hs, ?_, ?_⟩
    · intro p hp
      have ha : lookupKey a p.1 = some p.2 :=
        assocGet_eq_some_of_mem hna (mem_self_pair hp)
      have hk := hs p.1
      rw [ha] at hk
      cases hb : lookupKey b p.1 with
      | none => rw [hb] at hk; exact Option.noConfusion hk
      | some iv =>
          rw [hb] at hk
          have hview : (svTime p.2, svName p.2) = (svTime iv, svName iv) :=
            Option.some.inj hk
          obtain ⟨t, n, hobj⟩ := hfb (p.1, iv) (mem_of_assocGet_eq_some hb)
          have hobj2 : iv = StoreVal.obj t n := hobj
          unfold entryDirty
          rw [hb]
          show (if truthy iv = false then true
            else if svTime p.2 ≠ svTime iv then true
            else if svName p.2 ≠ svName iv then true else false) = false
          rw [if_neg (by rw [hobj2]; simp [truthy]),
            if_neg (not_ne_iff.mpr (congrArg Prod.fst hview)),
            if_neg (not_ne_iff.mpr (congrArg Prod.snd hview))]
    · intro p hp
      have hb : lookupKey b p.1 = some p.2 :=
        assocGet_eq_some_of_mem hnb (mem_self_pair hp)
      have hk := hs p.1
      rw [hb] at hk
      cases ha : lookupKey a p.1 with
      | none => rw [ha] at hk; exact Option.noConfusion hk
      | some cv =>
          obtain ⟨t, n, hobj⟩ := hfa (p.1, cv) (mem_of_assocGet_eq_some ha)
          have hobj2 : cv = StoreVal.obj t n := hobj
          unfold deletedDirty
          rw [ha, hobj2]
          rfl

theorem length_clearHotcue_lt {l : Store} {k : Key}
    (hm : k ∈ l.map Prod.fst) :
    (clearHotcue l k).length < l.length := by
  unfold clearHotcue
  induction l with
  | nil => simp at hm
  | cons p t ih =>
      rw [List.map_cons, List.mem_cons] at hm
      by_cases hp : p.1 = k
      · rw [List.filter_cons_of_neg (by simp [hp])]
        have hle := List.length_filter_le (fun p => !(p.1 == k)) t
        rw [List.length_cons]
        omega
      · rw [List.filter_cons_of_pos (by simp [hp])]
        rw [List.length_cons, List.length_cons]
        have hm2 : k ∈ t.map Prod.fst := by
          rcases hm with h | h
          · exact absurd h.symm hp
          · exact h
        exact Nat.succ_lt_succ (ih hm2)

theorem hasUnsavedChanges_true_of_length_ne {a b : Store}
    (h : a.length ≠ b.length) : hasUnsavedChanges a b = true := by
  rw [hasUnsavedChanges, if_pos h]

/-- C3 counterexample: starting from the clean state
store = snapshot = `\x7bq: \x7btime: 5, name: 'hi'\x7d\x7d` (as after a
successful save), a label edit on `q` that writes the same label `'hi'`
leaves `hasUnsavedChanges` false, although the claim requires it to be
true after any subsequent label edit applied while the snapshot is
unchanged. -/
theorem C3_counterexample :
    updateLabel [("q", StoreVal.obj 5 "hi")] "q" "hi"
        = [("q", StoreVal.obj 5 "hi")]
    ∧ hasUnsavedChanges (updateLabel [("q", StoreVal.obj 5 "hi")] "q" "hi")
        [("q", StoreVal.obj 5 "hi")] = false :=
  ⟨rfl, rfl⟩

/-- C3 (amended): on well-formed stores, `hasUnsavedChanges` is true
iff the live map and the snapshot differ in key set, some time value or
some label value (exact equality, no tolerance); it is false whenever
live and snapshot are copies of the same map (as immediately after a
successful `save()` or a `discard()`); and it becomes true after any
subsequent set of an absent key, clear of a present key, or label edit
that changes the stored label, applied while the snapshot is
unchanged.  (The amendment restricts the clear to present keys and the
label edit to label-changing ones, which is what the counterexample
forces.) -/
theorem C3_dirty_checking :
    (∀ a b : Store, NodupKeys a → NodupKeys b → Normalized a →
      Normalized b → (hasUnsavedChanges a b = true ↔ ¬ sameHotcues a b))
    ∧ (∀ a : Store, NodupKeys a → Normalized a →
        hasUnsavedChanges a a = false)
    ∧ (∀ (a b : Store) (k : Key) (t : ℚ), NodupKeys a → NodupKeys b →
        sameHotcues a b → lookupKey a k = none →
        hasUnsavedChanges (setKey a k (StoreVal.obj t "")) b = true)
    ∧ (∀ (a b : Store) (k : Key), NodupKeys a → NodupKeys b →
        sameHotcues a b → (lookupKey a k).isSome = true →
        hasUnsavedChanges (clearHotcue a k) b = true)
    ∧ (∀ (a b : Store) (k : Key) (v : StoreVal) (lbl : String),
        NodupKeys a → NodupKeys b → Normalized a → Normalized b →
        sameHotcues a b → lookupKey a k = some v →
        jsTrim lbl ≠ svName v →
        hasUnsavedChanges (updateLabel a k lbl) b = true) := by
  refine ⟨?_, ?_, ?_, ?_, ?_⟩
  · intro a b hna hnb hfa hfb
    rw [← hasUnsavedChanges_false_iff_same hna hnb hfa hfb]
    cases hasUnsavedChanges a b <;> simp
  · intro a hna hfa
    exact (hasUnsavedChanges_false_iff_same hna hna hfa hfa).mpr
      (fun k => rfl)
  · intro a b k t hna hnb hs habs
    have hlen : a.length = b.length := length_eq_of_sameHotcues hna hnb hs
    have hfind : (a.find? (fun p => p.1 == k)).isSome = false := by
      unfold lookupKey assocGet at habs
      cases hf : a.find? (fun p => p.1 == k) with
      | none => rfl
      | some q => rw [hf] at habs; exact Option.noConfusion habs
    have hset : setKey a k (StoreVal.obj t "") = a ++ [(k, StoreVal.obj t "")] := by
      unfold setKey
      rw [hfind]
      simp
    apply hasUnsavedChanges_true_of_length_ne
    rw [hset, List.length_append, List.length_singleton]
    omega
  · intro a b k hna hnb hs hsome
    have hlen : a.length = b.length := length_eq_of_sameHotcues hna hnb hs
    have hmem : k ∈ a.map Prod.fst := assocGet_isSome_iff_mem.mp hsome
    apply hasUnsavedChanges_true_of_length_ne
    have hlt := length_clearHotcue_lt hmem
    omega
  · intro a b k v lbl hna hnb hfa hfb hs hv hlbl
    have hmem : (k, v) ∈ a := mem_of_assocGet_eq_some hv
    obtain ⟨t0, n0, hobj⟩ := hfa (k, v) hmem
    have hobj0 : v = StoreVal.obj t0 n0 := hobj
    have htr : truthy v = true := by rw [hobj0]; rfl
    have hup : updateLabel a k lbl
        = a.map (fun p => if p.1 == k then
            (k, StoreVal.obj (svTime v) (jsTrim lbl)) else p) := by
      unfold updateLabel
      rw [hv]
      show (if truthy v = true then
          setKey a k (StoreVal.obj (svTime v) (jsTrim lbl)) else a) = _
      rw [if_pos htr]
      unfold setKey
      rw [if_pos (by
        unfold lookupKey assocGet at hv
        cases hf : a.find? (fun p => p.1 == k) with
        | none => rw [hf] at hv; exact Option.noConfusion hv
        | some q => rfl)]
    -- the snapshot still holds the old entry for k
    have hkb := hs k
    rw [hv] at hkb
    obtain ⟨iv, hb, hview⟩ : ∃ iv, lookupKey b k = some iv
        ∧ (svTime v, svName v) = (svTime iv, svName iv) := by
      cases hb : lookupKey b k with
      | none => rw [hb] at hkb; exact Option.noConfusion hkb
      | some iv => exact ⟨iv, rfl, Option.some.inj (by rw [hb] at hkb; exact hkb)⟩
    obtain ⟨t1, n1, hobj1⟩ := hfb (k, iv) (mem_of_assocGet_eq_some hb)
    -- the edited entry is dirty against the snapshot
    have hdirty : entryDirty b (k, StoreVal.obj (svTime v) (jsTrim lbl)) = true := by
      have hobj2 : iv = StoreVal.obj t1 n1 := hobj1
      unfold entryDirty
      rw [hb]
      show (if truthy iv = false then true
        else if svTime (StoreVal.obj (svTime v) (jsTrim lbl)) ≠ svTime iv then true
        else if svName (StoreVal.obj (svTime v) (jsTrim lbl)) ≠ svName iv then true
        else false) = true
      rw [if_neg (by rw [hobj2]; simp [truthy])]
      by_cases h2 : svTime (StoreVal.obj (svTime v) (jsTrim lbl)) ≠ svTime iv
      · rw [if_pos h2]
      · rw [if_neg h2, if_pos]
        show svName (StoreVal.obj (svTime v) (jsTrim lbl)) ≠ svName iv
        have : svName iv = svName v := (congrArg Prod.snd hview).symm
        rw [this]
        exact hlbl
    have hmem2 : (k, StoreVal.obj (svTime v) (jsTrim lbl))
        ∈ a.map (fun p => if p.1 == k then
            (k, StoreVal.obj (svTime v) (jsTrim lbl)) else p) := by
      have := List.mem_map_of_mem (fun p => if p.1 == k then
            (k, StoreVal.obj (svTime v) (jsTrim lbl)) else p) hmem
      simpa using this
    rw [hup, hasUnsavedChanges]
    rw [if_neg (by
      rw [List.length_map]
      exact not_ne_iff.mpr (length_eq_of_sameHotcues hna hnb hs))]
    rw [if_pos (List.any_eq_true.mpr ⟨_, hmem2, hdirty⟩)]

/-- Witness for C3 on concrete stores: clean state is not dirty; a set
of an absent key, a clear of a present key and a label-changing edit
each make it dirty; and the equivalence holds at a concrete pair. -/
theorem C3_dirty_checking_witness :
    hasUnsavedChanges [("q", StoreVal.obj 5 "hi")] [("q", StoreVal.obj 5 "hi")] = false
    ∧ hasUnsavedChanges (setKey [("q", StoreVal.obj 5 "hi")] "w" (StoreVal.obj 2 ""))
        [("q", StoreVal.obj 5 "hi")] = true
    ∧ hasUnsavedChanges (clearHotcue [("q", StoreVal.obj 5 "hi")] "q")
        [("q", StoreVal.obj 5 "hi")] = true
    ∧ hasUnsavedChanges (updateLabel [("q", StoreVal.obj 5 "hi")] "q" "new")
        [("q", StoreVal.obj 5 "hi")] = true
    ∧ ¬ sameHotcues [("q", StoreVal.obj 5 "hi")] [] := by
  have hn : NodupKeys [("q", StoreVal.obj 5 "hi")] := by
    unfold NodupKeys
    simp
  have hn0 : NodupKeys ([] : Store) := by
    unfold NodupKeys
    simp
  have hf : Normalized [("q", StoreVal.obj 5 "hi")] := by
    intro p hp
    rw [List.mem_singleton] at hp
    rw [hp]
    exact ⟨5, "hi", rfl⟩
  have hf0 : Normalized ([] : Store) := by
    intro p hp
    exact absurd hp (List.not_mem_nil p)
  refine ⟨C3_dirty_checking.2.1 _ hn hf,
    C3_dirty_checking.2.2.1 _ _ "w" 2 hn hn (fun k => rfl) rfl,
    C3_dirty_checking.2.2.2.1 _ _ "q" hn hn (fun k => rfl) rfl,
    C3_dirty_checking.2.2.2.2 _ _ "q" (StoreVal.obj 5 "hi") "new"
      hn hn hf hf (fun k => rfl) rfl (by decide),
    (C3_dirty_checking.1 _ _ hn hn0 hf hf0).mp rfl⟩

/-! ## Claims about saving -/

/-- C4: every failed save leaves the saved snapshot exactly as it was
and produces an error notification whose text distinguishes the failure
class (connection unreachable, timeout, server validation error,
generic); at the spec's scenario — server response
`\x7berror: 'Invalid data', missingFields: ['youtubeUrl']\x7d` — the
message contains both the error text and the missing field name. -/
theorem C4_save_failure :
    (∀ (u v un : Option String) (live snap : Store) (e : AxiosErr),
      (handleSave u v un live snap (SaveOutcome.failure e)).1 = snap
      ∧ (handleSave u v un live snap (SaveOutcome.failure e)).2.mtype
          = "error")
    ∧ (failureText ⟨some "ERR_NETWORK", "Network Error", none⟩
        ≠ failureText ⟨some "ECONNABORTED", "timeout of 10000ms exceeded",
            none⟩
      ∧ failureText ⟨some "ERR_NETWORK", "Network Error", none⟩
        ≠ failureText ⟨none, "Request failed with status code 400",
            some ⟨some "Invalid data", none, "Bad Request",
              some ["youtubeUrl"], none⟩⟩
      ∧ failureText ⟨some "ERR_NETWORK", "Network Error", none⟩
        ≠ failureText ⟨none, "boom", none⟩
      ∧ failureText ⟨some "ECONNABORTED", "timeout of 10000ms exceeded",
            none⟩
        ≠ failureText ⟨none, "Request failed with status code 400",
            some ⟨some "Invalid data", none, "Bad Request",
              some ["youtubeUrl"], none⟩⟩
      ∧ failureText ⟨some "ECONNABORTED", "timeout of 10000ms exceeded",
            none⟩
        ≠ failureText ⟨none, "boom", none⟩
      ∧ failureText ⟨none, "Request failed with status code 400",
            some ⟨some "Invalid data", none, "Bad Request",
              some ["youtubeUrl"], none⟩⟩
        ≠ failureText ⟨none, "boom", none⟩)
    ∧ ((∃ pre post : String,
        (handleSave (some "http://u") (some "v1") (some "me") [] []
          (SaveOutcome.failure ⟨none, "Request failed with status code 400",
            some ⟨some "Invalid data", none, "Bad Request",
              some ["youtubeUrl"], none⟩⟩)).2.text
          = pre ++ "Invalid data" ++ post)
      ∧ (∃ pre post : String,
        (handleSave (some "http://u") (some "v1") (some "me") [] []
          (SaveOutcome.failure ⟨none, "Request failed with status code 400",
            some ⟨some "Invalid data", none, "Bad Request",
              some ["youtubeUrl"], none⟩⟩)).2.text
          = pre ++ "youtubeUrl" ++ post)) := by
  refine ⟨?_, ?_, ?_⟩
  · intro u v un live snap e
    unfold handleSave
    split_ifs <;> exact ⟨rfl, rfl⟩
  · exact ⟨by decide, by decide, by decide, by decide, by decide, by decide⟩
  · exact ⟨⟨"Failed to save video. ", " Missing: youtubeUrl", by decide⟩,
      ⟨"Failed to save video. Invalid data Missing: ", "", by decide⟩⟩

/-! ## Claims about snapshot isolation (heap model) -/

theorem applyOp_snap (st : CompState) (op : LiveOp) :
    (applyOp st op).snap = st.snap := by
  cases op with
  | setHot k t =>
      simp only [applyOp]
      split <;> rfl
  | clearHot k => rfl
  | editLabel k lbl =>
      simp only [applyOp]
      cases (refLookup st.live k).bind (fun a => Heap.get st.heap a) with
      | none => rfl
      | some e => rfl

theorem applyOp_nextAddr_le (st : CompState) (op : LiveOp) :
    st.nextAddr ≤ (applyOp st op).nextAddr := by
  cases op with
  | setHot k t =>
      simp only [applyOp]
      split
      · exact Nat.le_refl _
      · exact Nat.le_succ _
  | clearHot k => exact Nat.le_refl _
  | editLabel k lbl =>
      simp only [applyOp]
      cases (refLookup st.live k).bind (fun a => Heap.get st.heap a) with
      | none => exact Nat.le_refl _
      | some e => exact Nat.le_succ _

theorem applyOp_get_stable (st : CompState) (op : LiveOp) {a : Addr}
    (ha : a < st.nextAddr) :
    Heap.get (applyOp st op).heap a = Heap.get st.heap a := by
  cases op with
  | setHot k t =>
      simp only [applyOp]
      split
      · rfl
      · exact assocGet_append_single_ne st.heap _ (Nat.ne_of_lt ha)
  | clearHot k => rfl
  | editLabel k lbl =>
      simp only [applyOp]
      cases (refLookup st.live k).bind (fun a => Heap.get st.heap a) with
      | none => rfl
      | some e => exact assocGet_append_single_ne st.heap _ (Nat.ne_of_lt ha)

theorem applyOps_get_stable :
    ∀ (ops : List LiveOp) (st : CompState) (a : Addr), a < st.nextAddr →
      Heap.get (applyOps st ops).heap a = Heap.get st.heap a := by
  intro ops
  induction ops with
  | nil => intro st a ha; rfl
  | cons op rest ih =>
      intro st a ha
      show Heap.get (applyOps (applyOp st op) rest).heap a = _
      rw [ih (applyOp st op) a
        (Nat.lt_of_lt_of_le ha (applyOp_nextAddr_le st op))]
      exact applyOp_get_stable st op ha

theorem content_snap_stable :
    ∀ (ops : List LiveOp) (st : CompState),
      (∀ p ∈ st.snap, p.2 < st.nextAddr) →
      content (applyOps st ops).heap (applyOps st ops).snap
        = content st.heap st.snap := by
  intro ops
  induction ops with
  | nil => intro st _; rfl
  | cons op rest ih =>
      intro st hb
      show content (applyOps (applyOp st op) rest).heap
          (applyOps (applyOp st op) rest).snap = _
      rw [ih (applyOp st op) (by
        rw [applyOp_snap]
        intro p hp
        exact Nat.lt_of_lt_of_le (hb p hp) (applyOp_nextAddr_le st op))]
      rw [applyOp_snap]
      unfold content
      apply List.map_congr_left
      intro p hp
      rw [applyOp_get_stable st op (hb p hp)]

/-- C7: snapshot/live isolation — after the binding-level snapshot copy
of a successful save (line 610), or after a discard, no sequence of
live-map mutations (set, clear, label edit) ever changes the observable
content of the saved snapshot; and no operation ever overwrites an
existing heap entry object, so mutations on either side can never leak
through the shared entry objects into the other. -/
theorem C7_snapshot_isolation :
    (∀ (st : CompState) (ops : List LiveOp),
      (∀ p ∈ st.live, p.2 < st.nextAddr) →
      content (applyOps (saveSnapshot st) ops).heap
          (applyOps (saveSnapshot st) ops).snap
        = content st.heap st.live)
    ∧ (∀ (st : CompState) (ops : List LiveOp),
      (∀ p ∈ st.snap, p.2 < st.nextAddr) →
      content (applyOps (discardState st) ops).heap
          (applyOps (discardState st) ops).snap
        = content st.heap st.snap)
    ∧ (∀ (st : CompState) (ops : List LiveOp) (a : Addr),
        a < st.nextAddr →
        Heap.get (applyOps st ops).heap a = Heap.get st.heap a) := by
  refine ⟨?_, ?_, ?_⟩
  · intro st ops hb
    exact content_snap_stable ops (saveSnapshot st) hb
  · intro st ops hb
    exact content_snap_stable ops (discardState st) hb
  · intro st ops a ha
    exact applyOps_get_stable ops st a ha

/-- Witness for C7: a concrete state with one saved hotcue; a label
edit, a set and a clear on the live map leave the snapshot content
untouched. -/
theorem C7_snapshot_isolation_witness :
    (∀ p ∈ ([("q", 0)] : RefMap), p.2 < 1)
    ∧ content
        (applyOps (saveSnapshot ⟨[(0, ⟨5, "x"⟩)], 1, [("q", 0)], []⟩)
          [LiveOp.editLabel "q" "new", LiveOp.setHot "w" 2,
           LiveOp.clearHot "q"]).heap
        (applyOps (saveSnapshot ⟨[(0, ⟨5, "x"⟩)], 1, [("q", 0)], []⟩)
          [LiveOp.editLabel "q" "new", LiveOp.setHot "w" 2,
           LiveOp.clearHot "q"]).snap
      = [("q", some ⟨5, "x"⟩)] := by
  have hb : ∀ p ∈ ([("q", 0)] : RefMap), p.2 < 1 := by decide
  refine ⟨hb, ?_⟩
  rw [C7_snapshot_isolation.1 ⟨[(0, ⟨5, "x"⟩)], 1, [("q", 0)], []⟩
    [LiveOp.editLabel "q" "new", LiveOp.setHot "w" 2,
     LiveOp.clearHot "q"] hb]
  rfl

/-! ## Claims about the scrub/seek controller -/

/-- C8 counterexample: on a ready player with duration 100 and a track
of width 1, the event sequence of one press-and-release interaction on
the track — mousedown, mouseup, then the click the browser dispatches
after the release — runs through the handlers with the dragging flag
already cleared at click time, so the drag-release seek AND the click
seek both fire (two seeks to 50), refuting "a single interaction never
causes both".  The drag alone (first two events) seeks once. -/
theorem C8_counterexample :
    (runScrub ⟨true, true, 100, true, 0, 1⟩ ⟨false, 0⟩
        [ScrubEvent.mouseDown (1/2), ScrubEvent.mouseUp (1/2)]).2 = [50]
    ∧ (runScrub ⟨true, true, 100, true, 0, 1⟩ ⟨false, 0⟩
        [ScrubEvent.mouseDown (1/2), ScrubEvent.mouseUp (1/2),
         ScrubEvent.click (1/2)]).2 = [50, 50] := by
  constructor
  · simp [runScrub, scrubStep, calculateSeekTime, min_def, max_def]
    norm_num
  · simp [runScrub, scrubStep, calculateSeekTime, min_def, max_def]
    norm_num

/-- C8 (amended): while the player is ready, the duration known and the
track attached, a drag (down, any number of moves, up) issues exactly
one seek, computed from the pointer position at release, with no seek
during the moves; a click event handled while no drag is in progress
issues exactly one seek to the clicked fraction times the duration; and
the click seek is suppressed exactly while the dragging flag is still
set — a click processed after the drag's release (flag already cleared)
is not suppressed and issues a further seek. -/
theorem C8_scrub_gestures (env : ScrubEnv)
    (hpl : env.hasPlayer = true) (hrd : env.ready = true)
    (hdur : env.duration ≠ 0)
    (x0 x1 : ℚ) (xs : List ℚ) :
    (runScrub env ⟨false, 0⟩
        (ScrubEvent.mouseDown x0
          :: (xs.map ScrubEvent.mouseMove ++ [ScrubEvent.mouseUp x1]))).2
      = [calculateSeekTime env x1]
    ∧ (runScrub env ⟨false, 0⟩
        (ScrubEvent.mouseDown x0
          :: (xs.map ScrubEvent.mouseMove ++ [ScrubEvent.mouseUp x1]))).1
      = ⟨false, 0⟩
    ∧ (runScrub env ⟨false, 0⟩ [ScrubEvent.click x1]).2
      = [calculateSeekTime env x1]
    ∧ (∀ s : ScrubState, s.isDragging = true →
        (scrubStep env s (ScrubEvent.click x1)).2 = []) := by
  have hdrag : ∀ (ys : List ℚ) (d : ℚ),
      runScrub env ⟨true, d⟩
          (ys.map ScrubEvent.mouseMove ++ [ScrubEvent.mouseUp x1])
        = (⟨false, 0⟩, [calculateSeekTime env x1]) := by
    intro ys
    induction ys with
    | nil =>
        intro d
        simp [runScrub, scrubStep, hpl, hrd]
    | cons y ys ih =>
        intro d
        simp only [List.map_cons, List.cons_append]
        simp [runScrub, scrubStep, hdur, ih]
  refine ⟨?_, ?_, ?_, ?_⟩
  · have h0 : runScrub env ⟨false, 0⟩
        (ScrubEvent.mouseDown x0
          :: (xs.map ScrubEvent.mouseMove ++ [ScrubEvent.mouseUp x1]))
      = (⟨false, 0⟩, [calculateSeekTime env x1]) := by
      simp [runScrub, scrubStep, hpl, hrd, hdur, hdrag]
    rw [h0]
  · have h0 : runScrub env ⟨false, 0⟩
        (ScrubEvent.mouseDown x0
          :: (xs.map ScrubEvent.mouseMove ++ [ScrubEvent.mouseUp x1]))
      = (⟨false, 0⟩, [calculateSeekTime env x1]) := by
      simp [runScrub, scrubStep, hpl, hrd, hdur, hdrag]
    rw [h0]
  · simp [runScrub, scrubStep, hpl, hrd, hdur]
  · intro s hs
    simp [scrubStep, hs]

/-- Witness for C8 (amended) at a concrete drag and a concrete click. -/
theorem C8_scrub_gestures_witness :
    (runScrub ⟨true, true, 100, true, 0, 1⟩ ⟨false, 0⟩
        [ScrubEvent.mouseDown (1/4), ScrubEvent.mouseMove (3/8),
         ScrubEvent.mouseUp (1/2)]).2 = [50]
    ∧ (runScrub ⟨true, true, 100, true, 0, 1⟩ ⟨false, 0⟩
        [ScrubEvent.click (1/2)]).2 = [50]
    ∧ (scrubStep ⟨true, true, 100, true, 0, 1⟩ ⟨true, 10⟩
        (ScrubEvent.click (1/2))).2 = [] := by
  have h := C8_scrub_gestures ⟨true, true, 100, true, 0, 1⟩ rfl rfl
    (by norm_num) (1/4) (1/2) [3/8]
  have hval : calculateSeekTime ⟨true, true, 100, true, 0, 1⟩ (1/2) = 50 := by
    simp [calculateSeekTime, min_def, max_def]
    norm_num
  refine ⟨?_, ?_, h.2.2.2 ⟨true, 10⟩ rfl⟩
  · have := h.1
    rw [hval] at this
    simpa using this
  · have := h.2.2.1
    rw [hval] at this
    simpa using this

/-- Witness for C10 on a concrete two-entry store. -/
theorem C10_frame_witness :
    ("w" : Key) ≠ "q"
    ∧ lookupKey (setKey [("q", StoreVal.obj 1 ""), ("w", StoreVal.obj 2 "x")]
        "q" (StoreVal.obj 3 "")) "w" = some (StoreVal.obj 2 "x")
    ∧ lookupKey (clearHotcue [("q", StoreVal.obj 1 ""),
        ("w", StoreVal.obj 2 "x")] "q") "w" = some (StoreVal.obj 2 "x")
    ∧ lookupKey (clearHotcue [("q", StoreVal.obj 1 ""),
        ("w", StoreVal.obj 2 "x")] "q") "q" = none
    ∧ clearHotcue [("w", StoreVal.obj 2 "x")] "q" = [("w", StoreVal.obj 2 "x")] := by
  have h := C10_frame [("q", StoreVal.obj 1 ""), ("w", StoreVal.obj 2 "x")]
    "q" "w" (StoreVal.obj 3 "") (by decide)
  have h2 := C10_frame [("w", StoreVal.obj 2 "x")] "q" "w"
    (StoreVal.obj 3 "") (by decide)
  refine ⟨by decide, ?_, ?_, h.2.2.1, h2.2.2.2 rfl⟩
  · rw [h.1]; rfl
  · rw [h.2.1]; rfl

end ViperVJ
